import Mathlib

/-!
A shallow embedding of the snake-game engine (`snake.py`) and proofs about it.

Conventions of the embedding:
* Python `int` becomes `Int` (positions, sizes) or `Nat` (board dimensions,
  list indices), Python `float` (`updateInterval`) becomes `ℚ` with exact
  arithmetic, Python `str` cell symbols stay `String`.
* Mutation becomes explicit state passing: methods that mutate the board
  return the new `Board`, methods of `Snake` return the new `Snake × Board`.
* `random.choice` becomes an explicit choice parameter: theorems quantify
  over the chosen element and hypothesise that it is a legal choice.
* The class-level `Game.apples` dictionary (shared across instances) is
  threaded explicitly as an `AppleMap` value through constructor and update.
* Partial indexing: `grid[index]` follows CPython list semantics — a
  negative index in `[-len, -1]` wraps to `len + index`, while an index
  outside `[-len, len)` raises `IndexError` (no successor state exists, so
  such a write/read is modelled as a no-op returning the unchanged state /
  an empty string). `segments[i]` uses `List.getD` with a default, with
  theorems carrying the in-range hypotheses the source relies on.
-/

/-- The `Direction` enum from `snake.py`. -/
inductive Direction where
  | Up
  | Down
  | Left
  | Right
deriving DecidableEq, Repr

/-- A `Position`: integer (x, y) pair. -/
structure Position where
  x : Int
  y : Int
deriving DecidableEq, Repr

instance : Inhabited Position := ⟨⟨0, 0⟩⟩

/-- CPython's hash for `int`: reduction modulo the Mersenne prime `2^61 - 1`
(sign preserved), with the result `-1` replaced by `-2`. -/
def pyIntHash (n : Int) : Int :=
  let m := if 0 ≤ n then n % (2 ^ 61 - 1) else -((-n) % (2 ^ 61 - 1))
  if m = -1 then -2 else m

/-- Embeds `Position.__hash__`: `hash(self.x) + hash(self.y)`. -/
def Position.pyHash (p : Position) : Int :=
  pyIntHash p.x + pyIntHash p.y

/-- Embeds `Position.__eq__`: `self.x == position.x and self.y == position.y`. -/
def Position.pyEq (p q : Position) : Bool :=
  p.x == q.x && p.y == q.y

namespace ControlCodes

def Reset : String := "\x1B[0m"
def RedFG : String := "\x1B[91m"
def GreenFG : String := "\x1B[92m"
def CyanFG : String := "\x1B[96m"

end ControlCodes

/-- The board: padded grid of cell symbols plus the incrementally maintained
free-cell index `emptyIndices`. -/
structure Board where
  width : Nat
  height : Nat
  paddedWidth : Nat
  paddedHeight : Nat
  grid : List String
  emptyIndices : Finset Int
deriving DecidableEq

namespace Board

def kEmptySymbol : String := " "
def kBoarderSize : Nat := 1

/-- Embeds `Board.GetDefaultSymbol`: border glyph for border cells, empty otherwise
(`x`, `y` are padded coordinates). -/
def GetDefaultSymbol (width height : Nat) (x y : Nat) : String :=
  if x < kBoarderSize then
    if y < kBoarderSize then "╔"
    else if y ≥ height + kBoarderSize then "╚"
    else "║"
  else if x ≥ width + kBoarderSize then
    if y < kBoarderSize then "╗"
    else if y ≥ height + kBoarderSize then "╝"
    else "║"
  else if y < kBoarderSize ∨ y ≥ height + kBoarderSize then "═"
  else kEmptySymbol

/-- The row-major grid built by the nested loop in `Board.__init__`:
`buildRows w h pW n` is the grid after the outer loop has run for
`y = 0, …, n-1`. -/
def buildRows (width height paddedWidth : Nat) : Nat → List String
  | 0 => []
  | y + 1 =>
      buildRows width height paddedWidth y
        ++ (List.range paddedWidth).map fun x => GetDefaultSymbol width height x y

/-- Embeds `Board.__init__`: grid of default symbols; `emptyIndices` collects the
flat indices whose default symbol is empty (the loop adds `y*paddedWidth + x`
exactly when the appended symbol is empty). -/
def build (width height : Nat) : Board :=
  let paddedWidth := width + 2 * kBoarderSize
  let paddedHeight := height + 2 * kBoarderSize
  { width := width
    height := height
    paddedWidth := paddedWidth
    paddedHeight := paddedHeight
    grid := buildRows width height paddedWidth paddedHeight
    emptyIndices := ((Finset.range (paddedHeight * paddedWidth)).filter fun i =>
      GetDefaultSymbol width height (i % paddedWidth) (i / paddedWidth) =
        kEmptySymbol).image fun i : Nat => (i : Int) }

/-- Embeds `Board.PositionToIndex`: `(y + border) * paddedWidth + (x + border)`. -/
def PositionToIndex (b : Board) (p : Position) : Int :=
  (p.y + (kBoarderSize : Int)) * (b.paddedWidth : Int) + (p.x + (kBoarderSize : Int))

/-- Embeds `Board.IndexToPosition`: inverse flat-index mapping. The index is
a Python int (it comes from the free-cell set), and `//` is Python floor
division, modelled by `Int.fdiv`. -/
def IndexToPosition (b : Board) (index : Int) : Position :=
  let y := index.fdiv (b.paddedWidth : Int)
  let x := index - y * (b.paddedWidth : Int)
  ⟨x - (kBoarderSize : Int), y - (kBoarderSize : Int)⟩

/-- Embeds `Board.GetSymbol` with CPython list-read semantics: a negative
index in `[-len, -1]` wraps to `len + index`; an index outside `[-len, len)`
raises, which (no successor state) is modelled as an empty result. -/
def GetSymbol (b : Board) (p : Position) : String :=
  let index := b.PositionToIndex p
  let readIndex := if index < 0 then (b.grid.length : Int) + index else index
  if 0 ≤ readIndex ∧ readIndex < (b.grid.length : Int) then b.grid.getD readIndex.toNat ""
  else ""

/-- Embeds `Board.SetSymbol`: write the cell (`grid[index] = symbol` with
CPython list-write semantics: a negative index in `[-len, -1]` wraps to
`len + index`; outside `[-len, len)` it raises, modelled as a no-op since no
successor state exists) and then update `emptyIndices` with the *raw* flat
index, as the source does (insert it if the symbol is empty, else discard
it). On a wrapping index the written cell and the recorded index therefore
disagree — the divergence `spec_C4_cex` exhibits. -/
def SetSymbol (b : Board) (p : Position) (symbol : String) : Board :=
  let index := b.PositionToIndex p
  let writeIndex := if index < 0 then (b.grid.length : Int) + index else index
  if 0 ≤ writeIndex ∧ writeIndex < (b.grid.length : Int) then
    { b with
      grid := b.grid.set writeIndex.toNat symbol
      emptyIndices :=
        if symbol = kEmptySymbol then insert index b.emptyIndices
        else b.emptyIndices.erase index }
  else b

/-- Embeds `Board.InBounds`: `0 ≤ x < width and 0 ≤ y < height`. -/
def InBounds (b : Board) (p : Position) : Bool :=
  (0 ≤ p.x && p.x < (b.width : Int)) && (0 ≤ p.y && p.y < (b.height : Int))

end Board

/-- Offsetting a position one cell in a direction (the `match` in
`Snake.Move` that builds `newHeadPosition` from a copy of the head). -/
def Position.step (p : Position) : Direction → Position
  | .Up => ⟨p.x, p.y - 1⟩
  | .Down => ⟨p.x, p.y + 1⟩
  | .Left => ⟨p.x - 1, p.y⟩
  | .Right => ⟨p.x + 1, p.y⟩

/-- The snake: direction, ring of segments with a head pointer, pending
growth counter and death flag. -/
structure Snake where
  direction : Direction
  headIndex : Nat
  segments : List Position
  numSegmentsToGrow : Int
  isDead : Bool
deriving DecidableEq

namespace Snake

def kBodySymbol : String := ControlCodes.GreenFG ++ "∗" ++ ControlCodes.Reset
def kDeathSymbol : String := ControlCodes.RedFG ++ "∗" ++ ControlCodes.Reset

/-- Embeds `Snake.__init__`. -/
def init (direction : Direction) (position : Position) : Snake :=
  { direction := direction
    headIndex := 0
    segments := [position]
    numSegmentsToGrow := 0
    isDead := false }

/-- Embeds `Snake.Size`. -/
def Size (s : Snake) : Nat :=
  s.segments.length

/-- Embeds `Snake.GetTailIndex`. -/
def GetTailIndex (s : Snake) : Nat :=
  let tailIndex := s.headIndex + 1
  if tailIndex ≥ s.segments.length then 0 else tailIndex

/-- Embeds `Snake.Kill`: set the death flag and mark the head cell. -/
def Kill (s : Snake) (b : Board) : Snake × Board :=
  ({ s with isDead := true },
   b.SetSymbol (s.segments.getD s.headIndex default) kDeathSymbol)

/-- The growth loop of `Snake.SetSize`:
`for _ in range(k): segments.insert(headIndex, copy(headPosition))`. -/
def insertGrowth (segments : List Position) (headIndex : Nat) (headPosition : Position) :
    Nat → List Position
  | 0 => segments
  | k + 1 => insertGrowth (segments.insertIdx headIndex headPosition) headIndex headPosition k

/-- The shrink loop of `Snake.SetSize`: pop up to `n` tail segments, never
below one segment, reverting each popped cell to empty and keeping
`headIndex` valid. -/
def shrinkLoop : Snake × Board → Nat → Snake × Board
  | sb, 0 => sb
  | (s, b), n + 1 =>
    if s.segments.length = 1 then (s, b)
    else
      let tailIndex := s.GetTailIndex
      let tailPosition := s.segments.getD tailIndex default
      shrinkLoop
        ({ s with
            segments := s.segments.eraseIdx tailIndex
            headIndex := if tailIndex < s.headIndex then s.headIndex - 1 else s.headIndex },
         b.SetSymbol tailPosition Board.kEmptySymbol) n

/-- Embeds `Snake.SetSize`: grow by inserting copies of the head position at the
head index and setting `numSegmentsToGrow := size - numSegments`, or shrink
by popping tail segments (with `numSegmentsToGrow` decremented, floored at
zero). -/
def SetSize (s : Snake) (b : Board) (size : Int) : Snake × Board :=
  let numSegments : Int := s.segments.length
  if numSegments < size then
    let headPosition := s.segments.getD s.headIndex default
    ({ s with
        numSegmentsToGrow := size - numSegments
        segments := insertGrowth s.segments s.headIndex headPosition (size - numSegments).toNat },
     b)
  else
    let numSegmentsToDelete := numSegments - size
    let g := s.numSegmentsToGrow - numSegmentsToDelete
    shrinkLoop ({ s with numSegmentsToGrow := if g < 0 then 0 else g }, b)
      numSegmentsToDelete.toNat

/-- Embeds `Snake.Move`: returns the new state together with
`(newHeadPosition, consumedSymbol)`. -/
def Move (s : Snake) (b : Board) : (Snake × Board) × (Position × String) :=
  if s.isDead then
    ((s, b), (s.segments.getD s.headIndex default, ""))
  else
    let newHeadPosition := (s.segments.getD s.headIndex default).step s.direction
    let tailIndex := s.GetTailIndex
    let (s1, b1) :=
      if s.numSegmentsToGrow > 0 then
        ({ s with numSegmentsToGrow := s.numSegmentsToGrow - 1 }, b)
      else
        (s, b.SetSymbol (s.segments.getD tailIndex default) Board.kEmptySymbol)
    let s2 := { s1 with segments := s1.segments.set tailIndex newHeadPosition, headIndex := tailIndex }
    let consumedSymbol := b1.GetSymbol newHeadPosition
    ((s2, b1.SetSymbol newHeadPosition kBodySymbol), (newHeadPosition, consumedSymbol))

end Snake

/-- The two apple variants (`Apple` and `SuperApple`). -/
inductive AppleKind where
  | Standard
  | Super
deriving DecidableEq, Repr

/-- The apple glyph placed on the board at construction. -/
def appleSymbol : AppleKind → String
  | .Standard => ControlCodes.RedFG ++ "O" ++ ControlCodes.Reset
  | .Super => ControlCodes.CyanFG ++ "S" ++ ControlCodes.Reset

/-- The `Game.apples` dictionary (`dict[Position, Apple]`), as an
association list with unique keys in insertion order. -/
abbrev AppleMap := List (Position × AppleKind)

/-- Dictionary lookup (`position in apples` / `apples[position]`). -/
def dictLookup : AppleMap → Position → Option AppleKind
  | [], _ => none
  | (k, v) :: rest, p => if k = p then some v else dictLookup rest p

/-- Removal of a key (the removal part of `dict.pop`). -/
def dictErase : AppleMap → Position → AppleMap
  | [], _ => []
  | (k, v) :: rest, p => if k = p then rest else (k, v) :: dictErase rest p

/-- Embeds `apples.pop(position)` guarded by `position in apples`. -/
def dictPop (m : AppleMap) (p : Position) : Option (AppleKind × AppleMap) :=
  match dictLookup m p with
  | none => none
  | some v => some (v, dictErase m p)

/-- Embeds `apples[position] = apple`: update in place if the key exists, else
append. -/
def dictSet : AppleMap → Position → AppleKind → AppleMap
  | [], p, v => [(p, v)]
  | (k, w) :: rest, p, v =>
      if k = p then (p, v) :: rest else (k, w) :: dictSet rest p v

/-- Per-instance game state. The class-level shared `apples` dictionary is
threaded separately (see `Game.init`, `Game.Update`). -/
structure Game where
  board : Board
  snake : Snake
  score : Int
  updateInterval : ℚ
deriving DecidableEq

/-- Embeds `Apple.Eat` and `SuperApple.Eat`: score, growth and (for Super) tick
interval effects on the owning game. -/
def Apple.Eat (kind : AppleKind) (g : Game) : Game :=
  match kind with
  | .Standard =>
      let (snake, board) := g.snake.SetSize g.board ((g.snake.Size : Int) + 4)
      { g with score := g.score + 1, snake := snake, board := board }
  | .Super =>
      let (snake, board) := g.snake.SetSize g.board ((g.snake.Size : Int) + 3)
      { g with
        score := g.score + 10
        updateInterval := g.updateInterval * (9 / 10)
        snake := snake
        board := board }

namespace Game

/-- Embeds `Game.SpawnApple`: `none` models `return False` (no empty cell); the
random choices of `random.choice` are passed in as `choiceIndex` (an element
of `emptyIndices`, hypothesised in the theorems) and `kind`. On success the
apple's constructor places its symbol on the board and the shared dictionary
gains the entry. -/
def SpawnApple (g : Game) (apples : AppleMap) (choiceIndex : Int) (kind : AppleKind) :
    Option (Game × AppleMap) :=
  if g.board.emptyIndices.card = 0 then none
  else
    let applePosition := g.board.IndexToPosition choiceIndex
    some ({ g with board := g.board.SetSymbol applePosition (appleSymbol kind) },
          dictSet apples applePosition kind)

/-- Embeds `Game.__init__`: fresh board, single-segment snake heading right from the
centre, then one `SpawnApple` into the shared class-level dictionary (which
is never cleared). If spawning fails the constructor still returns. -/
def init (width height : Nat) (apples : AppleMap) (choiceIndex : Int) (kind : AppleKind) :
    Game × AppleMap :=
  let g : Game :=
    { board := Board.build width height
      snake := Snake.init .Right ⟨(width : Int) / 2, (height : Int) / 2⟩
      score := 0
      updateInterval := 1 / 2 }
  match g.SpawnApple apples choiceIndex kind with
  | none => (g, apples)
  | some r => r

/-- Embeds `Game.Update`: move the snake; eat (and respawn) an apple under the new
head; then the self-collision check, then the bounds check. The returned
`Bool` is Python's return value (`False` ends the main loop). `GameOver`
only prints, so the win branch (`SpawnApple` returning false) changes no
state here. -/
def Update (g : Game) (apples : AppleMap) (choiceIndex : Int) (kind : AppleKind) :
    (Game × AppleMap) × Bool :=
  let moved := g.snake.Move g.board
  let snakePosition := moved.2.1
  let consumedSymbol := moved.2.2
  let g1 : Game := { g with snake := moved.1.1, board := moved.1.2 }
  let eaten :=
    match dictPop apples snakePosition with
    | none => (g1, apples)
    | some (apple, rest) =>
        let g2 := Apple.Eat apple g1
        match g2.SpawnApple rest choiceIndex kind with
        | none => (g2, rest)
        | some r => r
  let g3 := eaten.1
  let apples3 := eaten.2
  if consumedSymbol = Snake.kBodySymbol then
    let (s, b) := g3.snake.Kill g3.board
    (({ g3 with snake := s, board := b }, apples3), false)
  else if !(g3.board.InBounds snakePosition) then
    let (s, b) := g3.snake.Kill g3.board
    (({ g3 with snake := s, board := b }, apples3), false)
  else
    ((g3, apples3), true)

end Game

/-- Interior (non-border) flat indices of a `width × height` board. -/
def Board.interiorIndices (width height : Nat) : Finset Nat :=
  (Finset.range ((height + 2) * (width + 2))).filter fun i =>
    1 ≤ i % (width + 2) ∧ i % (width + 2) < width + 1 ∧
    1 ≤ i / (width + 2) ∧ i / (width + 2) < height + 1

/-- The free-cell-index invariant: `emptyIndices` is exactly the set of flat
indices whose grid entry is the empty symbol (stated pointwise over the
integer indices the set records). -/
def Board.FreeIndexInv (b : Board) : Prop :=
  ∀ j : Int, j ∈ b.emptyIndices ↔
    (0 ≤ j ∧ j < (b.grid.length : Int) ∧ b.grid.getD j.toNat "" = Board.kEmptySymbol)

/-- Replay of a sequence of `SetSymbol` calls. -/
def Board.applyCalls (b : Board) : List (Position × String) → Board
  | [] => b
  | (p, s) :: rest => (b.SetSymbol p s).applyCalls rest

/-- A position lying within the padded grid (interior or border cell). -/
def Board.PaddedPos (b : Board) (p : Position) : Prop :=
  -(Board.kBoarderSize : Int) ≤ p.x ∧ p.x < (b.width : Int) + Board.kBoarderSize ∧
  -(Board.kBoarderSize : Int) ≤ p.y ∧ p.y < (b.height : Int) + Board.kBoarderSize

/-- Structural well-formedness of a board's dimensions. -/
def Board.WF (b : Board) : Prop :=
  b.paddedWidth = b.width + 2 * Board.kBoarderSize ∧
  b.paddedHeight = b.height + 2 * Board.kBoarderSize ∧
  b.grid.length = b.paddedHeight * b.paddedWidth

instance (b : Board) (p : Position) : Decidable (b.PaddedPos p) := by
  unfold Board.PaddedPos
  infer_instance

instance (b : Board) : Decidable b.WF := by
  unfold Board.WF
  infer_instance

/-- The set of cells currently tagged as snake body. -/
def Board.bodyCells (b : Board) : Finset Nat :=
  (Finset.range b.grid.length).filter fun i => b.grid.getD i "" = Snake.kBodySymbol

/-- Runs `n` consecutive `Move` calls (the snake-stepping part of `n` ticks). -/
def Snake.moveIter (s : Snake) (b : Board) : Nat → Snake × Board
  | 0 => (s, b)
  | n + 1 =>
      let m := s.Move b
      moveIter m.1.1 m.1.2 n

/-- The position reached after `n` steps in direction `d`. -/
def Position.stepN (p : Position) (d : Direction) : Nat → Position
  | 0 => p
  | n + 1 => (p.step d).stepN d n

/-- Keys of the apples dictionary. -/
def dictKeys (m : AppleMap) : List Position :=
  m.map Prod.fst

/-! Concrete states used by counterexample / failing-input theorems. -/

/-- A full 3×1 board: two snake-body cells and one apple cell. -/
def C1board : Board :=
  (((Board.build 3 1).SetSymbol ⟨0, 0⟩ Snake.kBodySymbol).SetSymbol ⟨1, 0⟩
      Snake.kBodySymbol).SetSymbol ⟨2, 0⟩ (appleSymbol .Standard)

/-- A size-2 snake with one pending growth segment, heading right into the
apple at (2,0). -/
def C1snake : Snake :=
  { direction := .Right
    headIndex := 1
    segments := [⟨0, 0⟩, ⟨1, 0⟩]
    numSegmentsToGrow := 1
    isDead := false }

def C1game : Game :=
  { board := C1board, snake := C1snake, score := 0, updateInterval := 1 / 2 }

def C1apples : AppleMap := [(⟨2, 0⟩, .Standard)]

/-- A 10×10 board carrying the five body cells of `C2snake`. -/
def C2board : Board :=
  (((((Board.build 10 10).SetSymbol ⟨3, 3⟩ Snake.kBodySymbol).SetSymbol ⟨5, 3⟩
        Snake.kBodySymbol).SetSymbol ⟨6, 3⟩ Snake.kBodySymbol).SetSymbol ⟨7, 3⟩
      Snake.kBodySymbol).SetSymbol ⟨4, 3⟩ Snake.kBodySymbol

/-- A live size-5 snake with no pending growth whose head (4,3) faces left
into the cell (3,3) occupied by its own tail segment (ring index 0 is the
tail: `GetTailIndex = headIndex + 1 mod 5 = 0`). -/
def C2snake : Snake :=
  { direction := .Left
    headIndex := 4
    segments := [⟨3, 3⟩, ⟨5, 3⟩, ⟨6, 3⟩, ⟨7, 3⟩, ⟨4, 3⟩]
    numSegmentsToGrow := 0
    isDead := false }

def C2game : Game :=
  { board := C2board, snake := C2snake, score := 0, updateInterval := 1 / 2 }

/-- Concrete game used by witnesses: 2×1 board, size-1 snake at (1,0). -/
def W6game : Game :=
  { board := Board.build 2 1
    snake := Snake.init .Right ⟨1, 0⟩
    score := 0
    updateInterval := 1 / 2 }

/-- A 2×1 board whose only body cell is the snake start (0,0). -/
def W8board : Board :=
  (Board.build 2 1).SetSymbol ⟨0, 0⟩ Snake.kBodySymbol

def W8snake : Snake :=
  { direction := .Right
    headIndex := 0
    segments := [⟨0, 0⟩]
    numSegmentsToGrow := 0
    isDead := false }


def W2board : Board :=
  (((((Board.build 10 10).SetSymbol ⟨2, 2⟩ Snake.kBodySymbol).SetSymbol ⟨3, 2⟩
        Snake.kBodySymbol).SetSymbol ⟨4, 2⟩ Snake.kBodySymbol).SetSymbol ⟨4, 3⟩
      Snake.kBodySymbol).SetSymbol ⟨3, 3⟩ Snake.kBodySymbol

def W2snake : Snake :=
  { direction := .Up
    headIndex := 4
    segments := [⟨2, 2⟩, ⟨3, 2⟩, ⟨4, 2⟩, ⟨4, 3⟩, ⟨3, 3⟩]
    numSegmentsToGrow := 0
    isDead := false }

def W2game : Game :=
  { board := W2board, snake := W2snake, score := 0, updateInterval := 1 / 2 }

/-! Lemmas about the snake's segment ring -/

theorem Snake.GetTailIndex_lt (s : Snake) (h : 0 < s.segments.length) :
    s.GetTailIndex < s.segments.length := by
  simp only [GetTailIndex]
  split <;> omega

theorem Snake.length_insertGrowth (k : Nat) :
    ∀ (segments : List Position) (headIndex : Nat) (hp : Position),
      headIndex ≤ segments.length →
      (insertGrowth segments headIndex hp k).length = segments.length + k := by
  induction k with
  | zero => intro segs i hp _; rfl
  | succ k ih =>
      intro segs i hp h
      rw [insertGrowth, ih _ i hp (by rw [List.length_insertIdx _ _ h]; omega),
        List.length_insertIdx _ _ h]
      omega

theorem Snake.shrinkLoop_length (n : Nat) :
    ∀ (s : Snake) (b : Board), 1 ≤ s.segments.length →
      (shrinkLoop (s, b) n).1.segments.length = max (s.segments.length - n) 1 := by
  induction n with
  | zero => intro s b h; simp only [shrinkLoop]; omega
  | succ n ih =>
      intro s b h
      rw [shrinkLoop]
      split
      · next heq => simp only [heq]; omega
      · next hne =>
          have ht := Snake.GetTailIndex_lt s (by omega)
          rw [ih _ _ (by rw [List.length_eraseIdx_of_lt ht]; omega),
            List.length_eraseIdx_of_lt ht]
          omega

theorem Snake.Size_SetSize (s : Snake) (b : Board) (n : Int)
    (hlen : 1 ≤ s.segments.length) (hhead : s.headIndex < s.segments.length) :
    (s.SetSize b n).1.Size = max n.toNat 1 := by
  rw [SetSize]
  split
  · next h =>
      simp only [Size, Snake.length_insertGrowth _ _ _ _ (le_of_lt hhead)]
      omega
  · next h =>
      simp only [Size]
      rw [Snake.shrinkLoop_length]
      · simp only
        omega
      · simpa using hlen

/-! Claim theorems (first batch) -/

/-- C5: for every snake, `set_size(n)` with `n ≥ 1` makes `Size()` equal `n`,
and with `n < 1` leaves `Size()` at 1 (never below one segment). -/
theorem spec_C5 (s : Snake) (b : Board) (n : Int)
    (hlen : 1 ≤ s.segments.length) (hhead : s.headIndex < s.segments.length) :
    (1 ≤ n → ((s.SetSize b n).1.Size : Int) = n) ∧
    (n < 1 → (s.SetSize b n).1.Size = 1) := by
  have h := Snake.Size_SetSize s b n hlen hhead
  exact ⟨fun h1 => by rw [h]; omega, fun h1 => by rw [h]; omega⟩

theorem spec_C5_witness :
    (((Snake.init .Right ⟨5, 5⟩).SetSize (Board.build 2 1) 3).1.Size : Int) = 3 ∧
    ((Snake.init .Right ⟨5, 5⟩).SetSize (Board.build 2 1) 0).1.Size = 1 :=
  ⟨(spec_C5 (Snake.init .Right ⟨5, 5⟩) (Board.build 2 1) 3 (by decide) (by decide)).1
      (by decide),
   (spec_C5 (Snake.init .Right ⟨5, 5⟩) (Board.build 2 1) 0 (by decide) (by decide)).2
      (by decide)⟩

/-- C6: eating a Super apple adds exactly 10 to the score, grows the snake's
size by 3, and multiplies the tick interval by exactly 9/10; two Super eats
compound to 81/100 of the initial interval, so the interval only shrinks. -/
theorem spec_C6 (g : Game)
    (hlen : 1 ≤ g.snake.segments.length)
    (hhead : g.snake.headIndex < g.snake.segments.length) :
    (Apple.Eat .Super g).score = g.score + 10 ∧
    (Apple.Eat .Super g).updateInterval = g.updateInterval * (9 / 10) ∧
    ((Apple.Eat .Super g).snake.Size : Int) = (g.snake.Size : Int) + 3 ∧
    (Apple.Eat .Super (Apple.Eat .Super g)).updateInterval =
      g.updateInterval * (81 / 100) ∧
    (0 < g.updateInterval → (Apple.Eat .Super g).updateInterval < g.updateInterval) := by
  have hsize :
      ∀ g' : Game, 1 ≤ g'.snake.segments.length → g'.snake.headIndex < g'.snake.segments.length →
        ((Apple.Eat .Super g').snake.Size : Int) = (g'.snake.Size : Int) + 3 := by
    intro g' h1 h2
    simp only [Apple.Eat]
    rw [Snake.Size_SetSize _ _ _ h1 h2]
    simp only [Snake.Size]
    omega
  refine ⟨rfl, rfl, hsize g hlen hhead, ?_, ?_⟩
  · show g.updateInterval * (9 / 10) * (9 / 10) = g.updateInterval * (81 / 100)
    ring
  · intro hpos
    show g.updateInterval * (9 / 10) < g.updateInterval
    nlinarith

theorem spec_C6_witness :
    (Apple.Eat .Super W6game).score = W6game.score + 10 ∧
    (Apple.Eat .Super (Apple.Eat .Super W6game)).updateInterval =
      W6game.updateInterval * (81 / 100) ∧
    ((Apple.Eat .Super W6game).snake.Size : Int) = (W6game.snake.Size : Int) + 3 :=
  ⟨(spec_C6 W6game (by decide) (by decide)).1,
   (spec_C6 W6game (by decide) (by decide)).2.2.2.1,
   (spec_C6 W6game (by decide) (by decide)).2.2.1⟩

/-- C7: once the snake is dead, `Move` is a no-op — it returns the current
head position with an empty consumed tag and changes neither the snake (ring,
head index, pending growth) nor any board cell. -/
theorem spec_C7 (s : Snake) (b : Board) (h : s.isDead = true) :
    s.Move b = ((s, b), (s.segments.getD s.headIndex default, "")) := by
  simp [Snake.Move, h]

theorem spec_C7_witness :
    (Snake.mk .Up 0 [⟨2, 2⟩] 0 true).Move (Board.build 2 1) =
      ((Snake.mk .Up 0 [⟨2, 2⟩] 0 true, Board.build 2 1), (⟨2, 2⟩, "")) :=
  spec_C7 (Snake.mk .Up 0 [⟨2, 2⟩] 0 true) (Board.build 2 1) rfl

/-- C9: `Position` equality is componentwise by value, and equal positions
have equal hashes (so positions are usable as dictionary keys). -/
theorem spec_C9 (p q : Position) :
    (p.pyEq q = true ↔ (p.x = q.x ∧ p.y = q.y)) ∧
    (p.pyEq q = true → p.pyHash = q.pyHash) := by
  have heq : p.pyEq q = true ↔ (p.x = q.x ∧ p.y = q.y) := by
    simp [Position.pyEq]
  refine ⟨heq, fun h => ?_⟩
  obtain ⟨hx, hy⟩ := heq.mp h
  simp [Position.pyHash, hx, hy]

theorem spec_C9_witness :
    Position.pyHash ⟨3, 4⟩ = Position.pyHash ⟨3, 4⟩ :=
  (spec_C9 ⟨3, 4⟩ ⟨3, 4⟩).2 (by decide)

/-- C1 (code bug): on the tick in which the snake eats the last apple and
`SpawnApple` fails (no empty cell remains — the win terminal), `Update`
nevertheless returns `true`: the win branch only prints and falls through,
so the main loop does **not** stop as it does for self-collision and
out-of-bounds. Here the apple-eat branch runs (the new head (2,0) is a key
of the dictionary), afterwards the board has no empty cell and no apple was
respawned, yet `Update` returns `true`. -/
theorem spec_C1 :
    dictLookup C1apples ⟨2, 0⟩ = some .Standard ∧
    (Game.Update C1game C1apples 0 .Standard).1.1.board.emptyIndices.card = 0 ∧
    (Game.Update C1game C1apples 0 .Standard).1.2 = [] ∧
    (Game.Update C1game C1apples 0 .Standard).1.1.score = C1game.score + 1 ∧
    (Game.Update C1game C1apples 0 .Standard).2 = true := by
  refine ⟨by decide, ?_, by decide, by decide, ?_⟩ <;>
    · set_option maxRecDepth 10000 in decide

/-- C3 (code bug): `SetSize` in the grow branch *assigns*
`numSegmentsToGrow := target - size` instead of incrementing it. Starting
from a size-1 snake, `set_size(5)` leaves `growthPending = 4`; a second
`set_size(9)` while that growth is still pending inserts 4 more head copies
(size 9) but leaves `growthPending = 4`, not `4 + (9 - 5) = 8` as the claim
states. -/
theorem spec_C3 :
    ((Snake.init .Right ⟨5, 5⟩).SetSize (Board.build 10 10) 5).1.numSegmentsToGrow = 4 ∧
    ((Snake.init .Right ⟨5, 5⟩).SetSize (Board.build 10 10) 5).1.Size = 5 ∧
    ((((Snake.init .Right ⟨5, 5⟩).SetSize (Board.build 10 10) 5).1.SetSize
        (Board.build 10 10) 9).1.Size = 9) ∧
    ((((Snake.init .Right ⟨5, 5⟩).SetSize (Board.build 10 10) 5).1.SetSize
        (Board.build 10 10) 9).1.numSegmentsToGrow = 4) ∧
    ¬((((Snake.init .Right ⟨5, 5⟩).SetSize (Board.build 10 10) 5).1.SetSize
        (Board.build 10 10) 9).1.numSegmentsToGrow =
      ((Snake.init .Right ⟨5, 5⟩).SetSize (Board.build 10 10) 5).1.numSegmentsToGrow
        + (9 - 5)) := by
  refine ⟨by decide, by decide, by decide, by decide, by decide⟩

/-- C2 counterexample: the claim's own example fails on the code. `C2game`
holds a live size-5 snake with `growthPending = 0` on a 10×10 board whose
next head cell (3,3) is currently tagged `SnakeBody` — it is the cell of its
own tail segment. `Move` vacates the tail cell *before* reading the consumed
symbol, so the snake survives: `Update` returns `true`, the snake is not
dead, and the head cell shows the body glyph, not the death glyph. -/
theorem spec_C2_cex :
    C2game.snake.numSegmentsToGrow = 0 ∧
    C2game.snake.isDead = false ∧
    C2game.snake.Size = 5 ∧
    C2game.board.GetSymbol ((C2game.snake.segments.getD C2game.snake.headIndex default).step
      C2game.snake.direction) = Snake.kBodySymbol ∧
    (C2game.snake.segments.getD C2game.snake.headIndex default).step C2game.snake.direction =
      C2game.snake.segments.getD C2game.snake.GetTailIndex default ∧
    (Game.Update C2game [] 0 .Standard).2 = true ∧
    (Game.Update C2game [] 0 .Standard).1.1.snake.isDead = false ∧
    (Game.Update C2game [] 0 .Standard).1.1.board.GetSymbol ⟨3, 3⟩ = Snake.kBodySymbol := by
  refine ⟨by decide, by decide, by decide, ?_, by decide, ?_, ?_, ?_⟩ <;>
    · set_option maxRecDepth 10000 in decide

/-! Lemmas about the apples dictionary -/

theorem dictKeys_dictSet_superset (k : Position) (v : AppleKind) :
    ∀ (m : AppleMap) (p : Position), p ∈ dictKeys m → p ∈ dictKeys (dictSet m k v) := by
  intro m
  induction m with
  | nil => intro p hp; simp [dictKeys] at hp
  | cons kv rest ih =>
      intro p hp
      obtain ⟨k', v'⟩ := kv
      simp only [dictKeys, List.map_cons, List.mem_cons] at hp
      rw [dictSet]
      split
      · next h =>
          simp only [dictKeys, List.map_cons, List.mem_cons]
          rcases hp with hp | hp
          · exact Or.inl (by rw [hp, ← h])
          · exact Or.inr hp
      · next h =>
          simp only [dictKeys, List.map_cons, List.mem_cons]
          rcases hp with hp | hp
          · exact Or.inl hp
          · exact Or.inr (ih p hp)

theorem dictLookup_dictSet_self (k : Position) (v : AppleKind) :
    ∀ m : AppleMap, dictLookup (dictSet m k v) k = some v := by
  intro m
  induction m with
  | nil => simp [dictSet, dictLookup]
  | cons kv rest ih =>
      obtain ⟨k', v'⟩ := kv
      rw [dictSet]
      split
      · next h => simp [dictLookup]
      · next h => simp [dictLookup, h, ih]

theorem dictLookup_dictSet_ne (k : Position) (v : AppleKind) (p : Position) (hne : p ≠ k) :
    ∀ m : AppleMap, dictLookup (dictSet m k v) p = dictLookup m p := by
  intro m
  induction m with
  | nil => simp [dictSet, dictLookup, Ne.symm hne]
  | cons kv rest ih =>
      obtain ⟨k', v'⟩ := kv
      rw [dictSet]
      split
      · next h =>
          subst h
          simp [dictLookup, Ne.symm hne]
      · next h => simp [dictLookup, ih]

theorem dictKeys_dictSet_subset (k : Position) (v : AppleKind) :
    ∀ (m : AppleMap) (p : Position), p ∈ dictKeys (dictSet m k v) → p ∈ dictKeys m ∨ p = k := by
  intro m
  induction m with
  | nil => intro p hp; simpa [dictKeys, dictSet] using hp
  | cons kv rest ih =>
      intro p hp
      obtain ⟨k', v'⟩ := kv
      rw [dictSet] at hp
      split at hp
      · next h =>
          simp only [dictKeys, List.map_cons, List.mem_cons] at hp ⊢
          rcases hp with hp | hp
          · exact Or.inr hp
          · exact Or.inl (Or.inr hp)
      · next h =>
          simp only [dictKeys, List.map_cons, List.mem_cons] at hp ⊢
          rcases hp with hp | hp
          · exact Or.inl (Or.inl hp)
          · rcases ih p hp with hm | hk
            · exact Or.inl (Or.inr hm)
            · exact Or.inr hk

/-- When the fresh board has an empty cell, `Game.__init__` leaves the shared
dictionary equal to the old dictionary with the one spawned entry set. -/
theorem Game.init_apples (width height : Nat) (apples : AppleMap) (choiceIndex : Int)
    (kind : AppleKind) (hmem : choiceIndex ∈ (Board.build width height).emptyIndices) :
    (Game.init width height apples choiceIndex kind).2 =
      dictSet apples ((Board.build width height).IndexToPosition choiceIndex) kind := by
  have hcard : ¬((Board.build width height).emptyIndices.card = 0) := by
    have := Finset.card_pos.mpr ⟨choiceIndex, hmem⟩
    omega
  simp [Game.init, Game.SpawnApple, hcard]

/-- C10: the apples mapping is class-level shared state. Constructing a new
game with the dictionary accumulated by a previous session keeps every old
key present, adds the single entry spawned by the constructor, leaves every
other key's value unchanged, and adds nothing else. -/
theorem spec_C10 (width height : Nat) (apples : AppleMap) (choiceIndex : Int) (kind : AppleKind)
    (hmem : choiceIndex ∈ (Board.build width height).emptyIndices) :
    (∀ p ∈ dictKeys apples,
      p ∈ dictKeys (Game.init width height apples choiceIndex kind).2) ∧
    dictLookup (Game.init width height apples choiceIndex kind).2
      ((Board.build width height).IndexToPosition choiceIndex) = some kind ∧
    (∀ p, p ≠ (Board.build width height).IndexToPosition choiceIndex →
      dictLookup (Game.init width height apples choiceIndex kind).2 p = dictLookup apples p) ∧
    (∀ p ∈ dictKeys (Game.init width height apples choiceIndex kind).2,
      p ∈ dictKeys apples ∨ p = (Board.build width height).IndexToPosition choiceIndex) := by
  rw [Game.init_apples width height apples choiceIndex kind hmem]
  exact ⟨fun p hp => dictKeys_dictSet_superset _ kind apples p hp,
    dictLookup_dictSet_self _ kind apples,
    fun p hp => dictLookup_dictSet_ne _ kind p hp apples,
    fun p hp => dictKeys_dictSet_subset _ kind apples p hp⟩

theorem spec_C10_witness :
    dictLookup (Game.init 2 2 [(⟨0, 0⟩, AppleKind.Standard)] 6 .Super).2
      ((Board.build 2 2).IndexToPosition 6) = some .Super ∧
    dictLookup (Game.init 2 2 [(⟨0, 0⟩, AppleKind.Standard)] 6 .Super).2 ⟨0, 0⟩ =
      dictLookup [(⟨0, 0⟩, AppleKind.Standard)] ⟨0, 0⟩ :=
  ⟨(spec_C10 2 2 [(⟨0, 0⟩, AppleKind.Standard)] 6 .Super (by decide)).2.1,
   (spec_C10 2 2 [(⟨0, 0⟩, AppleKind.Standard)] 6 .Super (by decide)).2.2.1 ⟨0, 0⟩
     (by decide)⟩

/-! Lemmas about the board -/

theorem List.getD_set_self {α : Type} (l : List α) (i : Nat) (a d : α) (h : i < l.length) :
    (l.set i a).getD i d = a := by
  rw [List.getD_eq_getElem?_getD, List.getElem?_set_self h]
  rfl

theorem List.getD_set_ne {α : Type} (l : List α) (i j : Nat) (a d : α) (h : i ≠ j) :
    (l.set i a).getD j d = l.getD j d := by
  rw [List.getD_eq_getElem?_getD, List.getElem?_set_ne h, ← List.getD_eq_getElem?_getD]

theorem Board.SetSymbol_dims (b : Board) (p : Position) (sym : String) :
    (b.SetSymbol p sym).width = b.width ∧
    (b.SetSymbol p sym).height = b.height ∧
    (b.SetSymbol p sym).paddedWidth = b.paddedWidth ∧
    (b.SetSymbol p sym).paddedHeight = b.paddedHeight ∧
    (b.SetSymbol p sym).grid.length = b.grid.length := by
  rw [SetSymbol]
  split <;> split <;> simp

theorem Board.WF_SetSymbol (b : Board) (p : Position) (sym : String) (h : b.WF) :
    (b.SetSymbol p sym).WF := by
  obtain ⟨h1, h2, h3⟩ := h
  obtain ⟨d1, d2, d3, d4, d5⟩ := Board.SetSymbol_dims b p sym
  exact ⟨by rw [d3, d1, h1], by rw [d4, d2, h2], by rw [d5, d3, d4, h3]⟩

theorem Board.InBounds_congr (b b' : Board) (p : Position) (hw : b'.width = b.width)
    (hh : b'.height = b.height) : b'.InBounds p = b.InBounds p := by
  rw [Board.InBounds, Board.InBounds, hw, hh]

theorem Board.PositionToIndex_congr (b b' : Board) (p : Position)
    (hw : b'.paddedWidth = b.paddedWidth) : b'.PositionToIndex p = b.PositionToIndex p := by
  rw [Board.PositionToIndex, Board.PositionToIndex, hw]

theorem Board.FreeIndexInv_SetSymbol (b : Board) (p : Position) (sym : String)
    (hnw : ¬(-(b.grid.length : Int) ≤ b.PositionToIndex p ∧ b.PositionToIndex p < 0))
    (hinv : b.FreeIndexInv) : (b.SetSymbol p sym).FreeIndexInv := by
  rw [SetSymbol]
  by_cases hneg : b.PositionToIndex p < 0
  · rw [if_pos hneg]
    rw [if_neg (by omega)]
    exact hinv
  · rw [if_neg hneg]
    by_cases hval : 0 ≤ b.PositionToIndex p ∧ b.PositionToIndex p < (b.grid.length : Int)
    · rw [if_pos hval]
      have hlt : (b.PositionToIndex p).toNat < b.grid.length := by omega
      intro j
      simp only [List.length_set]
      by_cases hsym : sym = kEmptySymbol
      · rw [if_pos hsym]
        by_cases hj : j = b.PositionToIndex p
        · subst hj
          simp only [Finset.mem_insert, true_or]
          refine ⟨fun _ => ⟨hval.1, hval.2, ?_⟩, fun _ => trivial⟩
          rw [List.getD_set_self _ _ _ _ hlt, hsym]
        · rw [Finset.mem_insert]
          constructor
          · rintro (h | h)
            · exact absurd h hj
            · obtain ⟨h0, h1, h2⟩ := (hinv j).mp h
              refine ⟨h0, h1, ?_⟩
              rw [List.getD_set_ne _ _ _ _ _ (by omega)]
              exact h2
          · rintro ⟨h0, h1, h2⟩
            rw [List.getD_set_ne _ _ _ _ _ (by omega)] at h2
            exact Or.inr ((hinv j).mpr ⟨h0, h1, h2⟩)
      · rw [if_neg hsym]
        by_cases hj : j = b.PositionToIndex p
        · subst hj
          rw [Finset.mem_erase]
          constructor
          · rintro ⟨hne, _⟩
            exact absurd rfl hne
          · rintro ⟨_, _, h2⟩
            rw [List.getD_set_self _ _ _ _ hlt] at h2
            exact absurd h2 hsym
        · rw [Finset.mem_erase]
          constructor
          · rintro ⟨_, h⟩
            obtain ⟨h0, h1, h2⟩ := (hinv j).mp h
            refine ⟨h0, h1, ?_⟩
            rw [List.getD_set_ne _ _ _ _ _ (by omega)]
            exact h2
          · rintro ⟨h0, h1, h2⟩
            rw [List.getD_set_ne _ _ _ _ _ (by omega)] at h2
            exact ⟨hj, (hinv j).mpr ⟨h0, h1, h2⟩⟩
    · rw [if_neg hval]
      exact hinv

theorem Board.FreeIndexInv_applyCalls (calls : List (Position × String)) :
    ∀ b : Board, b.FreeIndexInv →
      (∀ c ∈ calls, ¬(-(b.grid.length : Int) ≤ b.PositionToIndex c.1 ∧
        b.PositionToIndex c.1 < 0)) →
      (b.applyCalls calls).FreeIndexInv := by
  induction calls with
  | nil => intro b h _; exact h
  | cons c rest ih =>
      intro b h hcalls
      obtain ⟨p, s⟩ := c
      apply ih
      · exact Board.FreeIndexInv_SetSymbol b p s (hcalls (p, s) (by simp)) h
      · intro c' hc'
        have hd := Board.SetSymbol_dims b p s
        rw [hd.2.2.2.2, Board.PositionToIndex_congr _ _ _ hd.2.2.1]
        exact hcalls c' (by simp [hc'])

theorem Board.length_buildRows (width height paddedWidth : Nat) :
    ∀ n : Nat, (buildRows width height paddedWidth n).length = n * paddedWidth := by
  intro n
  induction n with
  | zero => simp [buildRows]
  | succ n ih =>
      rw [buildRows, List.length_append, ih, List.length_map, List.length_range]
      ring

theorem Board.getD_buildRows (width height paddedWidth : Nat) (d : String) :
    ∀ (n y x : Nat), x < paddedWidth → y < n →
      (buildRows width height paddedWidth n).getD (y * paddedWidth + x) d =
        GetDefaultSymbol width height x y := by
  intro n
  induction n with
  | zero => intro y x _ hy; exact absurd hy (Nat.not_lt_zero y)
  | succ n ih =>
      intro y x hx hy
      rw [buildRows]
      rcases Nat.lt_or_ge y n with h | h
      · rw [List.getD_eq_getElem?_getD, List.getElem?_append_left, ← List.getD_eq_getElem?_getD]
        · exact ih y x hx h
        · rw [Board.length_buildRows]
          calc y * paddedWidth + x < y * paddedWidth + paddedWidth := by omega
            _ = (y + 1) * paddedWidth := by ring
            _ ≤ n * paddedWidth := Nat.mul_le_mul_right _ (by omega)
      · have hyn : y = n := by omega
        subst hyn
        rw [List.getD_eq_getElem?_getD, List.getElem?_append_right, Board.length_buildRows]
        · have hix : y * paddedWidth + x - y * paddedWidth = x := by omega
          rw [hix, List.getElem?_map, List.getElem?_range hx]
          rfl
        · rw [Board.length_buildRows]
          omega

theorem Board.getD_buildRows_index (width height paddedWidth : Nat) (hpW : 0 < paddedWidth)
    (d : String) (n i : Nat) (hi : i < n * paddedWidth) :
    (buildRows width height paddedWidth n).getD i d =
      GetDefaultSymbol width height (i % paddedWidth) (i / paddedWidth) := by
  have h1 : i % paddedWidth < paddedWidth := Nat.mod_lt _ hpW
  have h2 : i / paddedWidth < n := (Nat.div_lt_iff_lt_mul hpW).mpr hi
  have hsplit : i / paddedWidth * paddedWidth + i % paddedWidth = i := by
    rw [Nat.mul_comm]
    exact Nat.div_add_mod i paddedWidth
  conv_lhs => rw [← hsplit]
  exact Board.getD_buildRows width height paddedWidth d n _ _ h1 h2

theorem Board.GetDefaultSymbol_eq_empty (width height x y : Nat) :
    GetDefaultSymbol width height x y = kEmptySymbol ↔
      (kBoarderSize ≤ x ∧ x < width + kBoarderSize ∧
       kBoarderSize ≤ y ∧ y < height + kBoarderSize) := by
  rw [GetDefaultSymbol]
  simp only [kBoarderSize, kEmptySymbol]
  split_ifs with h1 h2 h3 h4 h5 h6 h7 <;> simp <;> omega

theorem Board.build_FreeIndexInv (width height : Nat) : (build width height).FreeIndexInv := by
  have hpW : 0 < width + 2 * kBoarderSize := by simp [kBoarderSize]
  intro j
  simp only [build, Finset.mem_image, Finset.mem_filter, Finset.mem_range,
    Board.length_buildRows]
  constructor
  · rintro ⟨i, ⟨hi, hP⟩, rfl⟩
    refine ⟨by omega, by omega, ?_⟩
    rw [Int.toNat_natCast,
      Board.getD_buildRows_index width height _ hpW "" _ i hi]
    exact hP
  · rintro ⟨h0, hlt, hsym⟩
    rw [Board.getD_buildRows_index width height _ hpW "" _ j.toNat (by omega)] at hsym
    exact ⟨j.toNat, ⟨by omega, hsym⟩, by omega⟩

theorem Board.build_emptyIndices (width height : Nat) :
    (build width height).emptyIndices =
      (interiorIndices width height).image fun i : Nat => (i : Int) := by
  have h2 : 2 * kBoarderSize = 2 := rfl
  simp only [build, h2, interiorIndices]
  congr 1
  apply Finset.filter_congr
  intro i _
  rw [Board.GetDefaultSymbol_eq_empty]
  simp only [kBoarderSize]

theorem Board.card_interiorIndices (width height : Nat) :
    (interiorIndices width height).card = width * height := by
  have key : interiorIndices width height =
      (Finset.range height ×ˢ Finset.range width).image
        (fun yx => (yx.1 + 1) * (width + 2) + (yx.2 + 1)) := by
    ext i
    simp only [interiorIndices, Finset.mem_filter, Finset.mem_range, Finset.mem_image,
      Finset.mem_product]
    constructor
    · rintro ⟨hlt, hx1, hx2, hy1, hy2⟩
      refine ⟨⟨i / (width + 2) - 1, i % (width + 2) - 1⟩, ⟨by omega, by omega⟩, ?_⟩
      have e1 : i / (width + 2) - 1 + 1 = i / (width + 2) := by omega
      have e2 : i % (width + 2) - 1 + 1 = i % (width + 2) := by omega
      rw [e1, e2, Nat.mul_comm]
      exact Nat.div_add_mod i (width + 2)
    · rintro ⟨⟨y, x⟩, ⟨hy, hx⟩, rfl⟩
      have hxw : x + 1 < width + 2 := by omega
      have hmod : ((y + 1) * (width + 2) + (x + 1)) % (width + 2) = x + 1 := by
        rw [Nat.add_comm ((y + 1) * (width + 2)) (x + 1), Nat.add_mul_mod_self_right]
        exact Nat.mod_eq_of_lt hxw
      have hdiv : ((y + 1) * (width + 2) + (x + 1)) / (width + 2) = y + 1 := by
        rw [Nat.add_comm ((y + 1) * (width + 2)) (x + 1),
          Nat.add_mul_div_right _ _ (show 0 < width + 2 by omega),
          Nat.div_eq_of_lt hxw]
        omega
      refine ⟨?_, ?_, ?_, ?_, ?_⟩
      · calc (y + 1) * (width + 2) + (x + 1)
            < (y + 1) * (width + 2) + (width + 2) := by omega
          _ = (y + 2) * (width + 2) := by ring
          _ ≤ (height + 2) * (width + 2) := Nat.mul_le_mul_right _ (by omega)
      · rw [hmod]; omega
      · rw [hmod]; omega
      · rw [hdiv]; omega
      · rw [hdiv]; omega
  have hinj : Set.InjOn (fun yx : Nat × Nat => (yx.1 + 1) * (width + 2) + (yx.2 + 1))
      ((Finset.range height ×ˢ Finset.range width) : Finset (Nat × Nat)) := by
    rintro ⟨y1, x1⟩ h1 ⟨y2, x2⟩ h2 heq
    simp only at heq
    have hx1 : ((y1 + 1) * (width + 2) + (x1 + 1)) % (width + 2) = x1 + 1 := by
      rw [Nat.add_comm ((y1 + 1) * (width + 2)) (x1 + 1), Nat.add_mul_mod_self_right]
      simp only [Finset.coe_product, Set.mem_prod, Finset.mem_coe, Finset.mem_range] at h1
      exact Nat.mod_eq_of_lt (by omega)
    have hx2 : ((y2 + 1) * (width + 2) + (x2 + 1)) % (width + 2) = x2 + 1 := by
      rw [Nat.add_comm ((y2 + 1) * (width + 2)) (x2 + 1), Nat.add_mul_mod_self_right]
      simp only [Finset.coe_product, Set.mem_prod, Finset.mem_coe, Finset.mem_range] at h2
      exact Nat.mod_eq_of_lt (by omega)
    have hxeq : x1 + 1 = x2 + 1 := by rw [← hx1, ← hx2, heq]
    have hyeq : (y1 + 1) * (width + 2) = (y2 + 1) * (width + 2) := by
      rw [hxeq] at heq
      exact Nat.add_right_cancel heq
    have hy : y1 + 1 = y2 + 1 :=
      Nat.eq_of_mul_eq_mul_right (show 0 < width + 2 by omega) hyeq
    have : y1 = y2 := by omega
    have : x1 = x2 := by omega
    simp_all
  rw [key, Finset.card_image_of_injOn hinj, Finset.card_product, Finset.card_range,
    Finset.card_range, Nat.mul_comm]

/-- C4 (amended): immediately after construction the free-cell index is
exactly the set of `width*height` interior cell indices (all holding the
empty tag, by the invariant), and after any sequence of `SetSymbol` calls
whose flat index does not fall in the CPython wraparound range
`[-len, -1]` — where the real program writes `grid[len+index]` while
recording the raw negative index, breaking the invariant (`spec_C4_cex`) —
the free-cell index is exactly the set of flat indices whose grid entry is
currently the empty tag. -/
theorem spec_C4 (width height : Nat) (calls : List (Position × String))
    (hcalls : ∀ c ∈ calls,
      ¬(-((Board.build width height).grid.length : Int) ≤
          (Board.build width height).PositionToIndex c.1 ∧
        (Board.build width height).PositionToIndex c.1 < 0)) :
    (Board.build width height).emptyIndices =
      (Board.interiorIndices width height).image (fun i : Nat => (i : Int)) ∧
    (Board.build width height).emptyIndices.card = width * height ∧
    (Board.build width height).FreeIndexInv ∧
    ((Board.build width height).applyCalls calls).FreeIndexInv := by
  refine ⟨Board.build_emptyIndices width height, ?_, Board.build_FreeIndexInv width height,
    Board.FreeIndexInv_applyCalls calls _ (Board.build_FreeIndexInv width height) hcalls⟩
  rw [Board.build_emptyIndices,
    Finset.card_image_of_injective _ (fun a b h => by exact_mod_cast h),
    Board.card_interiorIndices]

theorem Board.PositionToIndex_range (b : Board) (hWF : b.WF) (p : Position)
    (hp : b.PaddedPos p) :
    0 ≤ b.PositionToIndex p ∧ b.PositionToIndex p < (b.grid.length : Int) := by
  obtain ⟨hw, hh, hlen⟩ := hWF
  rw [Board.PaddedPos] at hp
  rw [Board.PositionToIndex]
  simp only [Board.kBoarderSize, Nat.cast_one] at hp ⊢
  obtain ⟨hx1, hx2, hy1, hy2⟩ := hp
  have hpW : ((b.paddedWidth : Nat) : Int) = (b.width : Int) + 2 := by
    rw [hw]; push_cast [Board.kBoarderSize]; ring
  have hpH : ((b.paddedHeight : Nat) : Int) = (b.height : Int) + 2 := by
    rw [hh]; push_cast [Board.kBoarderSize]; ring
  have hlen' : ((b.grid.length : Nat) : Int) =
      ((b.height : Int) + 2) * ((b.width : Int) + 2) := by
    rw [hlen]; push_cast; rw [hpH, hpW]
  rw [hpW, hlen']
  constructor
  · have h1 : (0 : Int) ≤ (p.y + 1) * ((b.width : Int) + 2) :=
      mul_nonneg (by omega) (by positivity)
    have h2 : (0 : Int) ≤ p.x + 1 := by omega
    linarith
  · have hstep : (p.y + 1) * ((b.width : Int) + 2) + (p.x + 1) <
        (p.y + 2) * ((b.width : Int) + 2) := by nlinarith
    have hmono : (p.y + 2) * ((b.width : Int) + 2) ≤
        ((b.height : Int) + 2) * ((b.width : Int) + 2) :=
      mul_le_mul_of_nonneg_right (by omega) (by positivity)
    exact lt_of_lt_of_le hstep hmono

theorem Board.PositionToIndex_inj (b : Board) (hWF : b.WF) (p q : Position)
    (hp : b.PaddedPos p) (hq : b.PaddedPos q)
    (h : b.PositionToIndex p = b.PositionToIndex q) : p = q := by
  obtain ⟨hw, _, _⟩ := hWF
  rw [Board.PaddedPos] at hp hq
  rw [Board.PositionToIndex, Board.PositionToIndex] at h
  simp only [Board.kBoarderSize, Nat.cast_one] at hp hq h
  obtain ⟨hpx1, hpx2, hpy1, hpy2⟩ := hp
  obtain ⟨hqx1, hqx2, hqy1, hqy2⟩ := hq
  have hpW : ((b.paddedWidth : Nat) : Int) = (b.width : Int) + 2 := by
    rw [hw]; push_cast [Board.kBoarderSize]; ring
  rw [hpW] at h
  have m1 : ((p.y + 1) * ((b.width : Int) + 2) + (p.x + 1)) % ((b.width : Int) + 2) =
      p.x + 1 := by
    rw [add_comm ((p.y + 1) * ((b.width : Int) + 2)) (p.x + 1), Int.add_mul_emod_self]
    exact Int.emod_eq_of_lt (by omega) (by omega)
  have m2 : ((q.y + 1) * ((b.width : Int) + 2) + (q.x + 1)) % ((b.width : Int) + 2) =
      q.x + 1 := by
    rw [add_comm ((q.y + 1) * ((b.width : Int) + 2)) (q.x + 1), Int.add_mul_emod_self]
    exact Int.emod_eq_of_lt (by omega) (by omega)
  have e1 := congrArg (fun t => t % ((b.width : Int) + 2)) h
  simp only at e1
  rw [m1, m2] at e1
  have hx : p.x = q.x := by omega
  have hy : p.y = q.y := by
    rw [hx] at h
    have hmul : (p.y + 1) * ((b.width : Int) + 2) = (q.y + 1) * ((b.width : Int) + 2) := by
      linarith
    have := mul_right_cancel₀ (show ((b.width : Int) + 2) ≠ 0 by omega) hmul
    omega
  obtain ⟨px, py⟩ := p
  obtain ⟨qx, qy⟩ := q
  simp_all

theorem Board.PositionToIndex_SetSymbol (b : Board) (p : Position) (sym : String)
    (q : Position) : (b.SetSymbol p sym).PositionToIndex q = b.PositionToIndex q := by
  rw [Board.PositionToIndex, Board.PositionToIndex, (Board.SetSymbol_dims b p sym).2.2.1]

theorem Board.PaddedPos_SetSymbol (b : Board) (p : Position) (sym : String) (q : Position) :
    (b.SetSymbol p sym).PaddedPos q ↔ b.PaddedPos q := by
  rw [Board.PaddedPos, Board.PaddedPos, (Board.SetSymbol_dims b p sym).1,
    (Board.SetSymbol_dims b p sym).2.1]

theorem Board.GetSymbol_SetSymbol_self (b : Board) (p : Position) (sym : String)
    (h : 0 ≤ b.PositionToIndex p ∧ b.PositionToIndex p < (b.grid.length : Int)) :
    (b.SetSymbol p sym).GetSymbol p = sym := by
  have hidx := Board.PositionToIndex_SetSymbol b p sym p
  have hlen := (Board.SetSymbol_dims b p sym).2.2.2.2
  rw [Board.GetSymbol, hidx, hlen]
  rw [if_neg (by omega : ¬b.PositionToIndex p < 0)]
  rw [if_pos h]
  rw [Board.SetSymbol]
  rw [if_neg (by omega : ¬b.PositionToIndex p < 0)]
  rw [if_pos h]
  exact List.getD_set_self _ _ _ _ (by omega)

theorem Board.GetSymbol_SetSymbol_ne (b : Board) (p q : Position) (sym : String)
    (hp0 : 0 ≤ b.PositionToIndex p) (hq0 : 0 ≤ b.PositionToIndex q)
    (hne : b.PositionToIndex p ≠ b.PositionToIndex q) :
    (b.SetSymbol p sym).GetSymbol q = b.GetSymbol q := by
  have hidx := Board.PositionToIndex_SetSymbol b p sym q
  have hlen := (Board.SetSymbol_dims b p sym).2.2.2.2
  rw [Board.GetSymbol, hidx, hlen, Board.GetSymbol]
  rw [if_neg (by omega : ¬b.PositionToIndex q < 0)]
  split
  · next hv =>
      rw [Board.SetSymbol]
      rw [if_neg (by omega : ¬b.PositionToIndex p < 0)]
      split
      · next hvp =>
          exact List.getD_set_ne _ _ _ _ _ (by omega)
      · rfl
  · rfl

/-- Characterisation of one live, non-growing `Move`: the tail cell is
vacated, the ring slot at the tail index is overwritten with the stepped
head position, the head pointer advances to that slot, and the new head cell
is read (consumed symbol) then marked as body. -/
theorem Snake.Move_eq (s : Snake) (b : Board) (halive : s.isDead = false)
    (hgrow : s.numSegmentsToGrow = 0) :
    s.Move b =
      ((⟨s.direction, s.GetTailIndex,
          s.segments.set s.GetTailIndex
            ((s.segments.getD s.headIndex default).step s.direction), 0, false⟩,
        (b.SetSymbol (s.segments.getD s.GetTailIndex default)
            Board.kEmptySymbol).SetSymbol
          ((s.segments.getD s.headIndex default).step s.direction) Snake.kBodySymbol),
       ((s.segments.getD s.headIndex default).step s.direction,
        (b.SetSymbol (s.segments.getD s.GetTailIndex default)
            Board.kEmptySymbol).GetSymbol
          ((s.segments.getD s.headIndex default).step s.direction))) := by
  obtain ⟨d, hi, segs, grow, dead⟩ := s
  simp only at halive hgrow
  subst halive
  subst hgrow
  rfl

/-- C2 (amended): for every live snake with no growth pending whose next
head cell is tagged `SnakeBody` and is not the cell of the current tail
segment (which `Move` vacates before reading), `Update` returns false, the
snake is dead, and the head's board cell holds the death glyph. The
amendment excludes exactly the tail-cell case refuted by `spec_C2_cex`. -/
theorem spec_C2 (g : Game) (apples : AppleMap) (choiceIndex : Int) (kind : AppleKind)
    (hWF : g.board.WF)
    (halive : g.snake.isDead = false)
    (hgrow : g.snake.numSegmentsToGrow = 0)
    (hhead : g.snake.headIndex < g.snake.segments.length)
    (hpadNew : g.board.PaddedPos
      ((g.snake.segments.getD g.snake.headIndex default).step g.snake.direction))
    (hpadTail : g.board.PaddedPos (g.snake.segments.getD g.snake.GetTailIndex default))
    (hbody : g.board.GetSymbol
      ((g.snake.segments.getD g.snake.headIndex default).step g.snake.direction) =
      Snake.kBodySymbol)
    (hne : (g.snake.segments.getD g.snake.headIndex default).step g.snake.direction ≠
      g.snake.segments.getD g.snake.GetTailIndex default)
    (hnoapple : dictLookup apples
      ((g.snake.segments.getD g.snake.headIndex default).step g.snake.direction) = none) :
    (Game.Update g apples choiceIndex kind).2 = false ∧
    (Game.Update g apples choiceIndex kind).1.1.snake.isDead = true ∧
    (Game.Update g apples choiceIndex kind).1.1.board.GetSymbol
      ((g.snake.segments.getD g.snake.headIndex default).step g.snake.direction) =
      Snake.kDeathSymbol := by
  have hmove := Snake.Move_eq g.snake g.board halive hgrow
  have htailidx := Snake.GetTailIndex_lt g.snake (by omega)
  have hrangeNew := Board.PositionToIndex_range g.board hWF _ hpadNew
  have hrangeTail := Board.PositionToIndex_range g.board hWF _ hpadTail
  have hidxne : g.board.PositionToIndex (g.snake.segments.getD g.snake.GetTailIndex default) ≠
      g.board.PositionToIndex
        ((g.snake.segments.getD g.snake.headIndex default).step g.snake.direction) := by
    intro hEq
    exact hne (Board.PositionToIndex_inj g.board hWF _ _ hpadTail hpadNew hEq).symm
  have hconsumed : (g.board.SetSymbol (g.snake.segments.getD g.snake.GetTailIndex default)
        Board.kEmptySymbol).GetSymbol
        ((g.snake.segments.getD g.snake.headIndex default).step g.snake.direction) =
      Snake.kBodySymbol := by
    rw [Board.GetSymbol_SetSymbol_ne g.board _ _ _ hrangeTail.1 hrangeNew.1 hidxne]
    exact hbody
  simp only [Game.Update, hmove, dictPop, hnoapple, hconsumed, if_true, Snake.Kill]
  refine ⟨trivial, trivial, ?_⟩
  rw [List.getD_set_self _ _ _ _ htailidx]
  apply Board.GetSymbol_SetSymbol_self
  rw [Board.PositionToIndex_SetSymbol, Board.PositionToIndex_SetSymbol,
    (Board.SetSymbol_dims _ _ _).2.2.2.2, (Board.SetSymbol_dims _ _ _).2.2.2.2]
  exact hrangeNew


set_option maxRecDepth 100000 in
theorem spec_C2_witness :
    (Game.Update W2game [] 0 AppleKind.Standard).2 = false ∧
    (Game.Update W2game [] 0 AppleKind.Standard).1.1.snake.isDead = true ∧
    (Game.Update W2game [] 0 AppleKind.Standard).1.1.board.GetSymbol
      ((W2game.snake.segments.getD W2game.snake.headIndex default).step
        W2game.snake.direction) = Snake.kDeathSymbol :=
  spec_C2 W2game [] 0 AppleKind.Standard (by decide) (by decide) (by decide) (by decide)
    (by decide) (by decide) (by decide) (by decide) (by decide)

theorem Position.step_ne (p : Position) (d : Direction) : p.step d ≠ p := by
  obtain ⟨x, y⟩ := p
  cases d <;> simp [Position.step]

theorem Board.PaddedPos_of_InBounds (b : Board) (p : Position) (h : b.InBounds p = true) :
    b.PaddedPos p := by
  rw [Board.InBounds] at h
  rw [Board.PaddedPos]
  simp only [Bool.and_eq_true, decide_eq_true_eq] at h
  simp only [Board.kBoarderSize, Nat.cast_one]
  omega

theorem Board.bodyCells_SetSymbol (b : Board) (p : Position) (sym : String)
    (h : 0 ≤ b.PositionToIndex p ∧ b.PositionToIndex p < (b.grid.length : Int)) :
    (b.SetSymbol p sym).bodyCells =
      if sym = Snake.kBodySymbol then insert (b.PositionToIndex p).toNat b.bodyCells
      else b.bodyCells.erase (b.PositionToIndex p).toNat := by
  have hlt : (b.PositionToIndex p).toNat < b.grid.length := by omega
  rw [Board.SetSymbol, if_neg (by omega : ¬b.PositionToIndex p < 0), if_pos h]
  rw [Board.bodyCells, Board.bodyCells]
  simp only [List.length_set]
  by_cases hsym : sym = Snake.kBodySymbol
  · rw [if_pos hsym]
    subst hsym
    ext j
    simp only [Finset.mem_insert, Finset.mem_filter, Finset.mem_range]
    by_cases hj : j = (b.PositionToIndex p).toNat
    · subst hj
      simp [List.getD_set_self _ _ _ _ hlt, hlt]
    · constructor
      · rintro ⟨h1, h2⟩
        rw [List.getD_set_ne _ _ _ _ _ (Ne.symm hj)] at h2
        exact Or.inr ⟨h1, h2⟩
      · rintro (h1 | ⟨h1, h2⟩)
        · exact absurd h1 hj
        · exact ⟨h1, by rw [List.getD_set_ne _ _ _ _ _ (Ne.symm hj)]; exact h2⟩
  · rw [if_neg hsym]
    ext j
    simp only [Finset.mem_erase, Finset.mem_filter, Finset.mem_range]
    by_cases hj : j = (b.PositionToIndex p).toNat
    · subst hj
      constructor
      · rintro ⟨_, h2⟩
        rw [List.getD_set_self _ _ _ _ hlt] at h2
        exact absurd h2 hsym
      · rintro ⟨hne, _⟩
        exact absurd rfl hne
    · constructor
      · rintro ⟨h1, h2⟩
        rw [List.getD_set_ne _ _ _ _ _ (Ne.symm hj)] at h2
        exact ⟨hj, h1, h2⟩
      · rintro ⟨_, h1, h2⟩
        exact ⟨h1, by rw [List.getD_set_ne _ _ _ _ _ (Ne.symm hj)]; exact h2⟩

/-- One `Move` of a live size-1 snake with no pending growth whose cell is
the only body-tagged cell: the snake ends as a size-1 snake at the stepped
position, the board keeps its dimensions, exactly the new head cell is
body-tagged, and the vacated cell reads empty. -/
theorem Snake.size1_move (d : Direction) (p : Position) (b : Board) (hWF : b.WF)
    (hpadp : b.PaddedPos p) (hpadq : b.PaddedPos (p.step d))
    (hbody : b.bodyCells = {(b.PositionToIndex p).toNat}) :
    ((Snake.mk d 0 [p] 0 false).Move b).1.1 = Snake.mk d 0 [p.step d] 0 false ∧
    ((Snake.mk d 0 [p] 0 false).Move b).1.2.width = b.width ∧
    ((Snake.mk d 0 [p] 0 false).Move b).1.2.height = b.height ∧
    ((Snake.mk d 0 [p] 0 false).Move b).1.2.paddedWidth = b.paddedWidth ∧
    ((Snake.mk d 0 [p] 0 false).Move b).1.2.WF ∧
    ((Snake.mk d 0 [p] 0 false).Move b).1.2.bodyCells =
      {(b.PositionToIndex (p.step d)).toNat} ∧
    ((Snake.mk d 0 [p] 0 false).Move b).1.2.GetSymbol p = Board.kEmptySymbol := by
  have hmove := Snake.Move_eq (Snake.mk d 0 [p] 0 false) b rfl rfl
  simp only [Snake.GetTailIndex, List.length_singleton, ge_iff_le, le_refl, if_pos,
    List.getD_cons_zero, List.set_cons_zero] at hmove
  have hvp := Board.PositionToIndex_range b hWF p hpadp
  have hvq := Board.PositionToIndex_range b hWF (p.step d) hpadq
  have hWF1 : (b.SetSymbol p Board.kEmptySymbol).WF := Board.WF_SetSymbol _ _ _ hWF
  have hd1 := Board.SetSymbol_dims b p Board.kEmptySymbol
  have hvq1 : 0 ≤ (b.SetSymbol p Board.kEmptySymbol).PositionToIndex (p.step d) ∧
      (b.SetSymbol p Board.kEmptySymbol).PositionToIndex (p.step d) <
        ((b.SetSymbol p Board.kEmptySymbol).grid.length : Int) := by
    rw [Board.PositionToIndex_congr _ _ _ hd1.2.2.1, hd1.2.2.2.2]
    exact hvq
  have hvp1 : 0 ≤ (b.SetSymbol p Board.kEmptySymbol).PositionToIndex p ∧
      (b.SetSymbol p Board.kEmptySymbol).PositionToIndex p <
        ((b.SetSymbol p Board.kEmptySymbol).grid.length : Int) := by
    rw [Board.PositionToIndex_congr _ _ _ hd1.2.2.1, hd1.2.2.2.2]
    exact hvp
  have hidxne : b.PositionToIndex p ≠ b.PositionToIndex (p.step d) := by
    intro hEq
    exact Position.step_ne p d (Board.PositionToIndex_inj b hWF p (p.step d) hpadp hpadq hEq).symm
  refine ⟨?_, ?_, ?_, ?_, ?_, ?_, ?_⟩
  · rw [hmove]
  · rw [hmove, (Board.SetSymbol_dims _ _ _).1, hd1.1]
  · rw [hmove, (Board.SetSymbol_dims _ _ _).2.1, hd1.2.1]
  · rw [hmove, (Board.SetSymbol_dims _ _ _).2.2.1, hd1.2.2.1]
  · rw [hmove]
    exact Board.WF_SetSymbol _ _ _ hWF1
  · rw [hmove]
    rw [Board.bodyCells_SetSymbol _ _ _ hvq1, if_pos rfl]
    rw [Board.bodyCells_SetSymbol _ _ _ hvp, if_neg (by decide)]
    rw [hbody, Finset.erase_singleton, Board.PositionToIndex_congr _ _ _ hd1.2.2.1]
    simp
  · rw [hmove]
    rw [Board.GetSymbol_SetSymbol_ne _ _ _ _ hvq1.1 hvp1.1 (by
      rw [Board.PositionToIndex_congr _ _ _ hd1.2.2.1, Board.PositionToIndex_congr _ _ _ hd1.2.2.1]
      exact fun hEq => hidxne hEq.symm)]
    exact Board.GetSymbol_SetSymbol_self b p Board.kEmptySymbol hvp

/-- C8: a size-1 snake (no pending growth) that stays in bounds for `N`
moves occupies exactly one body-tagged cell after every number of moves —
the current head cell — and the cell it just left reads empty. -/
theorem spec_C8 (b : Board) (d : Direction) (p : Position) (N : Nat)
    (hWF : b.WF)
    (hbody : b.bodyCells = {(b.PositionToIndex p).toNat})
    (hinb : ∀ k, k ≤ N → b.InBounds (p.stepN d k) = true) :
    (Snake.moveIter (Snake.mk d 0 [p] 0 false) b N).1.segments = [p.stepN d N] ∧
    (Snake.moveIter (Snake.mk d 0 [p] 0 false) b N).2.bodyCells =
      {((Snake.moveIter (Snake.mk d 0 [p] 0 false) b N).2.PositionToIndex
        (p.stepN d N)).toNat} ∧
    (1 ≤ N →
      (Snake.moveIter (Snake.mk d 0 [p] 0 false) b N).2.GetSymbol (p.stepN d (N - 1)) =
        Board.kEmptySymbol) := by
  induction N generalizing p b with
  | zero =>
      refine ⟨rfl, hbody, fun h => absurd h (by omega)⟩
  | succ N ih =>
      have hpadp : b.PaddedPos p := Board.PaddedPos_of_InBounds b p (hinb 0 (by omega))
      have hpadq : b.PaddedPos (p.step d) :=
        Board.PaddedPos_of_InBounds b _ (hinb 1 (by omega))
      obtain ⟨hsnake, hw, hh, hpw, hWF', hbody', hget⟩ :=
        Snake.size1_move d p b hWF hpadp hpadq hbody
      simp only [Snake.moveIter]
      rw [hsnake]
      have hbody'' : ((Snake.mk d 0 [p] 0 false).Move b).1.2.bodyCells =
          {(((Snake.mk d 0 [p] 0 false).Move b).1.2.PositionToIndex (p.step d)).toNat} := by
        rw [hbody', Board.PositionToIndex_congr _ _ _ hpw]
      have hinb' : ∀ k, k ≤ N →
          ((Snake.mk d 0 [p] 0 false).Move b).1.2.InBounds ((p.step d).stepN d k) = true := by
        intro k hk
        rw [Board.InBounds_congr _ _ _ hw hh]
        exact hinb (k + 1) (by omega)
      obtain ⟨ih1, ih2, ih3⟩ :=
        ih ((Snake.mk d 0 [p] 0 false).Move b).1.2 (p.step d) hWF' hbody'' hinb'
      refine ⟨ih1, ih2, ?_⟩
      intro _
      cases N with
      | zero => exact hget
      | succ M => exact ih3 (by omega)

theorem spec_C8_witness :
    (Snake.moveIter (Snake.mk .Right 0 [(⟨0, 0⟩ : Position)] 0 false) W8board 1).1.segments =
      [Position.stepN ⟨0, 0⟩ .Right 1] ∧
    (Snake.moveIter (Snake.mk .Right 0 [(⟨0, 0⟩ : Position)] 0 false) W8board 1).2.GetSymbol
      (Position.stepN ⟨0, 0⟩ .Right 0) = Board.kEmptySymbol :=
  ⟨(spec_C8 W8board .Right ⟨0, 0⟩ 1 (by decide) (by decide) (by decide)).1,
   (spec_C8 W8board .Right ⟨0, 0⟩ 1 (by decide) (by decide) (by decide)).2.2 (by decide)⟩

/-- C4 counterexample: the claim's "after any sequence of set calls"
invariant is false on the real program. On a 3×1 board (grid length 15) the
call `SetSymbol ⟨-5, -2⟩ body` has flat index −9; CPython list indexing
wraps, so `grid[-9] = body` writes interior cell 6, while
`emptyIndices.discard(-9)` leaves 6 in the free-cell set. The invariant
holds before the call and fails after it: index 6 is still recorded free
although its cell now holds the body glyph. -/
theorem spec_C4_cex :
    (Board.build 3 1).FreeIndexInv ∧
    ¬((Board.build 3 1).SetSymbol ⟨-5, -2⟩ Snake.kBodySymbol).FreeIndexInv :=
  ⟨Board.build_FreeIndexInv 3 1,
   fun h => absurd ((h 6).mp (by decide)).2.2 (by decide)⟩

theorem spec_C4_witness :
    (Board.build 2 1).emptyIndices.card = 2 * 1 ∧
    ((Board.build 2 1).applyCalls
        [(⟨0, 0⟩, Snake.kBodySymbol), (⟨0, 0⟩, Board.kEmptySymbol),
         (⟨1, 0⟩, appleSymbol .Standard)]).FreeIndexInv :=
  ⟨(spec_C4 2 1
      [(⟨0, 0⟩, Snake.kBodySymbol), (⟨0, 0⟩, Board.kEmptySymbol),
       (⟨1, 0⟩, appleSymbol .Standard)] (by decide)).2.1,
   (spec_C4 2 1
      [(⟨0, 0⟩, Snake.kBodySymbol), (⟨0, 0⟩, Board.kEmptySymbol),
       (⟨1, 0⟩, appleSymbol .Standard)] (by decide)).2.2.2⟩
